import Mathlib

/-!
Shallow embedding of the obsidian-mindmap plugin sources:
* the code-block renderer (SettingsManager, SizeManager, CodeBlockRenderer),
* the Mindmap view (event listeners, debounced quick-preview updates,
  checkAndUpdate, applyColor),
* the htmlescape transformer plugin.

JavaScript objects whose precise field set is irrelevant (the three settings
layers) are modelled as association lists of key/value pairs; object spread
is right-biased merge, realised here by lookup order.  Third-party engines
(gray-matter front-matter parsing, the markmap transformer and renderer)
are modelled structurally or kept as abstract function parameters.
-/

namespace Mindmap

/-- A JavaScript primitive value as it occurs in the settings objects. -/
inductive SVal where
  | num (n : Int)
  | str (s : String)
  | bool (b : Bool)
deriving DecidableEq

/-- JavaScript truthiness of an optional value (undefined is falsy). -/
def truthy : Option SVal → Bool
  | none => false
  | some (.num n) => n != 0
  | some (.str s) => s != ""
  | some (.bool b) => b

/-- A JavaScript object modelled as an association list; earlier entries
shadow later ones under lookup, so a spread `\x7b...a, ...b\x7d` is modelled by
listing `b` before `a`. -/
abbrev JSObj := List (String × SVal)

/-- Property access `obj[k]` (undefined when absent). -/
def JSObj.get (o : JSObj) (k : String) : Option SVal :=
  match o with
  | [] => none
  | (k', v) :: rest => if k = k' then some v else JSObj.get rest k

/-- The `markmap` object inside a document's front-matter: its `height` key
and the remaining keys. -/
structure MarkmapFM where
  height : Option Int
  rest : List (String × SVal)
deriving DecidableEq

/-- Front-matter data of a code block: the `markmap` object (absent when the
front-matter has none) and the remaining top-level keys. -/
structure FMData where
  markmap : Option MarkmapFM
  rest : List (String × SVal)
deriving DecidableEq

/-- The structural content of the code-block region, as gray-matter exposes
it: parsed front-matter data plus the body text.  Gray-matter parsing and
stringifying are third-party; the round trip is modelled as the identity on
this structure. -/
structure GMFile where
  data : FMData
  content : String
deriving DecidableEq

/-- The editor document, split at the code block's section boundaries: the
text before line `lineStart + 1`, the region between `lineStart + 1` and
`lineEnd` (held in parsed form), and the text after. -/
structure EditorDoc where
  before : String
  region : GMFile
  after : String
deriving DecidableEq

/-- State of `SettingsManager` (src/unnamed/part_001, lines 72-126): the three
settings layers and the pending resize height `newHeight`. -/
structure SettingsManager where
  global : JSObj
  file : JSObj
  codeBlock : JSObj
  newHeight : Option Int
deriving DecidableEq

namespace SettingsManager

/-- `DEFAULT_HEIGHT` from the source. -/
def DEFAULT_HEIGHT : Int := 150

/-- The persisted height `this.settings.codeBlock.height`: the `height` key
of the code-block settings layer when it holds a number. -/
def codeBlockHeight (m : SettingsManager) : Option Int :=
  match m.codeBlock.get "height" with
  | some (.num n) => some n
  | _ => none

/-- The `height` getter: `this.newHeight ?? this.settings.codeBlock.height
?? this.DEFAULT_HEIGHT`. -/
def height (m : SettingsManager) : Int :=
  m.newHeight.getD ((codeBlockHeight m).getD DEFAULT_HEIGHT)

/-- The `height` setter: clears `newHeight` when the assigned value equals
the persisted code-block height, otherwise records it as pending. -/
def setHeight (m : SettingsManager) (h : Int) : SettingsManager :=
  if codeBlockHeight m = some h
  then { m with newHeight := none }
  else { m with newHeight := some h }

/-- The `merged` getter:
`\x7b ...global, ...file, ...codeBlock, height: this.height \x7d`.
Later spreads shadow earlier ones, so the lookup list puts the explicit
`height` first, then codeBlock, file, global. -/
def merged (m : SettingsManager) : JSObj :=
  ("height", SVal.num m.height) :: (m.codeBlock ++ m.file ++ m.global)

/-- Reading the `merged` getter, as the state transition it performs on the
manager: it returns the merged object and the (unchanged) manager. -/
def mergedRead (m : SettingsManager) : JSObj × SettingsManager :=
  (merged m, m)

/-- `saveHeight`: when a height is pending, reparse the code-block region,
set `data.markmap.height` (creating `markmap` when absent) to the current
height, write the region back, and clear the pending height; otherwise do
nothing. -/
def saveHeight (m : SettingsManager) (doc : EditorDoc) :
    SettingsManager × EditorDoc :=
  match m.newHeight with
  | none => (m, doc)
  | some _ =>
    let md := doc.region
    let mm := md.data.markmap.getD ⟨none, []⟩
    let mm' : MarkmapFM := { mm with height := some m.height }
    let md' : GMFile := { md with data := { md.data with markmap := some mm' } }
    ({ m with newHeight := none }, { doc with region := md' })

end SettingsManager

/-! ## CodeBlockRenderer (src/unnamed/part_001, lines 14-60)

The markmap renderer, the markdown parser `readMarkdown` and the option
derivation `getOptions` live outside the embedded sources (markmap-view and
src/rendering/renderer-common); they are kept as abstract parameters
`parse` and `getOptions`.  The DOM effects that matter to the claims are
recorded in the state: the last `markmap.setData` payload and the class
list of the container's parent element. -/

/-- The code block handed to the renderer: its markdown text.  (Its
container element is modelled by the class list in the renderer state.) -/
structure CodeBlock where
  markdown : String
deriving DecidableEq

/-- The CSS class `cssClasses.highlight` (the literal lives in
src/constants, outside the embedded sources; its exact text is irrelevant
to the claims). -/
def cssHighlight : String := "highlight"

/-- `classList.add`: appends the class unless already present. -/
def classAdd (l : List String) (c : String) : List String :=
  if c ∈ l then l else l ++ [c]

/-- `classList.remove`: removes the class. -/
def classRemove (l : List String) (c : String) : List String :=
  l.filter (fun x => x ≠ c)

/-- Renderer state: the settings manager, the root node parsed at
construction, the last `setData` payload, the parent element's class list,
and a count of `render` calls. -/
structure CBRState (Node Opts : Type) where
  settings : SettingsManager
  rootNode : Node
  lastSetData : Option (Node × Opts)
  parentClasses : List String
  renderCount : Nat

/-- `render` (src/unnamed/part_001, lines 51-59): feeds the markmap the
stored root node with options derived from the merged settings, then adds
or removes the highlight class on the container's parent according to
`settings.merged.highlight`. -/
def render {Node Opts : Type} (getOptions : JSObj → Opts)
    (s : CBRState Node Opts) : CBRState Node Opts :=
  let markmapOptions := getOptions s.settings.merged
  { s with
    lastSetData := some (s.rootNode, markmapOptions)
    parentClasses :=
      if truthy (s.settings.merged.get "highlight")
      then classAdd s.parentClasses cssHighlight
      else classRemove s.parentClasses cssHighlight
    renderCount := s.renderCount + 1 }

/-- The `CodeBlockRenderer` constructor: parses the code block's markdown
once into a root node and code-block settings, builds the settings manager
from the three layers, and performs the initial `render()`. -/
def CodeBlockRenderer {Node Opts : Type} (parse : String → Node × JSObj)
    (getOptions : JSObj → Opts) (codeBlock : CodeBlock)
    (globalSettings fileSettings : JSObj) : CBRState Node Opts :=
  let parsed := parse codeBlock.markdown
  render getOptions
    { settings :=
        { global := globalSettings, file := fileSettings
          codeBlock := parsed.2, newHeight := none }
      rootNode := parsed.1
      lastSetData := none
      parentClasses := []
      renderCount := 0 }

/-- `updateGlobalSettings`: replaces the global settings layer and
re-renders. -/
def updateGlobalSettings {Node Opts : Type} (getOptions : JSObj → Opts)
    (globalSettings : JSObj) (s : CBRState Node Opts) : CBRState Node Opts :=
  render getOptions { s with settings := { s.settings with global := globalSettings } }

/-- `updateFileSettings`: replaces the file settings layer and re-renders. -/
def updateFileSettings {Node Opts : Type} (getOptions : JSObj → Opts)
    (fileSettings : JSObj) (s : CBRState Node Opts) : CBRState Node Opts :=
  render getOptions { s with settings := { s.settings with file := fileSettings } }

/-- The operations the host can perform on a live renderer: the two settings
updates, a re-render from the style stream, and a resize drag (the size
manager assigning `settings.height`). -/
inductive CBOp where
  | setGlobal (g : JSObj)
  | setFile (f : JSObj)
  | rerender
  | dragTo (h : Int)

/-- Apply one operation to the renderer state. -/
def applyOp {Node Opts : Type} (getOptions : JSObj → Opts) (op : CBOp)
    (s : CBRState Node Opts) : CBRState Node Opts :=
  match op with
  | .setGlobal g => updateGlobalSettings getOptions g s
  | .setFile f => updateFileSettings getOptions f s
  | .rerender => render getOptions s
  | .dragTo h => { s with settings := s.settings.setHeight h }

/-- Apply a sequence of operations. -/
def applyOps {Node Opts : Type} (getOptions : JSObj → Opts) (ops : List CBOp)
    (s : CBRState Node Opts) : CBRState Node Opts :=
  ops.foldl (fun st op => applyOp getOptions op st) s

/-! ## The quick-preview debounce (src/unnamed/part_000, lines 145-156)

The handler keeps at most one pending timeout.  A pending timer is a pair
of its firing time (event time + 300 ms) and the captured content.  An
incoming event first lets a timer that was due fire (producing an `update`
call with its captured content), then clears any still-pending timer and
schedules a fresh 300 ms one for its own content. -/

/-- A pending debounce timer: firing time and the content captured by the
scheduled callback. -/
abbrev PendingTimer := Option (Nat × String)

/-- One quick-preview event at time `t` with content `c`: timers due at or
before `t` have fired (calling `update` with their captured content); the
handler then cancels the pending timer and schedules `t + 300`. -/
def quickPreviewStep (pending : PendingTimer) (t : Nat) (c : String) :
    List String × PendingTimer :=
  let fired :=
    match pending with
    | some (ft, cOld) => if ft ≤ t then [cOld] else []
    | none => []
  (fired, some (t + 300, c))

/-- Run a timestamped event sequence from a pending-timer state, collecting
the contents passed to `update`; when the events stop, a still-pending
timer eventually fires. -/
def processQuickPreview : PendingTimer → List (Nat × String) → List String
  | pending, [] =>
    match pending with
    | some (_, c) => [c]
    | none => []
  | pending, (t, c) :: rest =>
    let stepped := quickPreviewStep pending t c
    stepped.1 ++ processQuickPreview stepped.2 rest

/-- Two consecutive quick-preview events are less than 300 ms apart (and in
chronological order). -/
def closeSpaced (a b : Nat × String) : Prop :=
  a.1 ≤ b.1 ∧ b.1 < a.1 + 300

/-! ## Workspace listeners (src/unnamed/part_000, lines 144-179 and 212-214)

Event emitters hand out references; `offref` detaches the referenced
listener from the emitter it is called on.  The view registers ten
workspace events plus one leaf event, stores all references in
`listeners`, and `onClose` calls `workspace.offref` on each stored
reference. -/

/-- A listener reference: the emitter it was registered on, a serial
number, and the event name. -/
structure EventRef where
  emitter : String
  id : Nat
  event : String
deriving DecidableEq

/-- An event emitter (the workspace or a leaf). -/
structure Emitter where
  name : String
  nextId : Nat
  refs : List EventRef
deriving DecidableEq

/-- `emitter.on(event, cb)`: attaches a listener and returns its
reference. -/
def Emitter.on (w : Emitter) (ev : String) : EventRef × Emitter :=
  let r : EventRef := ⟨w.name, w.nextId, ev⟩
  (r, { w with nextId := w.nextId + 1, refs := r :: w.refs })

/-- `emitter.offref(ref)`: detaches the referenced listener; a reference
from another emitter matches nothing. -/
def Emitter.offref (w : Emitter) (r : EventRef) : Emitter :=
  { w with refs := w.refs.filter (fun x => x ≠ r) }

/-- The ten workspace events `setListenersUp` subscribes to, in source
order. -/
def workspaceEvents : List String :=
  ["quick-preview", "resize", "active-leaf-change", "layout-change",
   "css-change", "file-menu", "editor-menu", "editor-paste", "editor-drop",
   "codemirror"]

/-- Register a listener for each event in order, collecting the
references. -/
def registerAll (w : Emitter) : List String → List EventRef × Emitter
  | [] => ([], w)
  | e :: rest =>
    let first := w.on e
    let more := registerAll first.2 rest
    (first.1 :: more.1, more.2)

/-- `setListenersUp`: subscribes the ten workspace events and the leaf's
`group-change` event and stores every returned reference in the
`listeners` array (in source order: workspace events first, then the leaf
event). -/
def setListenersUp (w leaf : Emitter) :
    List EventRef × Emitter × Emitter :=
  let ws := registerAll w workspaceEvents
  let gl := leaf.on "group-change"
  (ws.1 ++ [gl.1], ws.2, gl.2)

/-- `onClose`: calls `workspace.offref` on every stored listener
reference. -/
def onClose (listeners : List EventRef) (w : Emitter) : Emitter :=
  listeners.foldl Emitter.offref w

/-! ## checkAndUpdate (src/unnamed/part_000, lines 252-326)

The lifecycle handlers all funnel into `checkAndUpdate`, which wraps
`checkActiveLeaf` and `update` in a try/catch that logs.  Property
accesses on possibly-undefined objects throw; `readMarkDown` has its own
try/catch and yields undefined when the vault read fails.  The third-party
transformer/renderer steps inside `update` are not modelled beyond the
early-return on empty content; `update`'s invocations are counted. -/

/-- `MD_VIEW_TYPE` (src/constants, outside the embedded sources; the exact
literal is irrelevant). -/
def MD_VIEW_TYPE : String := "markdown"

/-- The file attached to a markdown view. -/
structure FileInfo where
  path : String
  basename : String
deriving DecidableEq

/-- A leaf's view: its type and (for markdown views) its file, which may be
missing. -/
structure MVView where
  viewType : String
  file : Option FileInfo
deriving DecidableEq

/-- A workspace leaf, whose view may be missing. -/
structure Leaf where
  view : Option MVView
deriving DecidableEq

/-- The host environment as the view observes it: the active leaf and the
vault's read operation (`none` = the read throws). -/
structure Host where
  activeLeaf : Option Leaf
  read : String → Option String

/-- Mutable state of the Mindmap view that the update pipeline touches,
plus counters recording the observable effects: `update` invocations and
console log entries from caught errors. -/
structure MVState where
  filePath : String
  fileName : String
  currentMd : Option String
  isLeafPinned : Bool
  linkedLeaf : Option Leaf
  updateCount : Nat
  errorLog : Nat
deriving DecidableEq

/-- `getLeafTarget`: when not pinned, `linkedLeaf` is overwritten with the
active leaf; the target is `linkedLeaf` when defined, else the active
leaf. -/
def getLeafTarget (h : Host) (s : MVState) : Option Leaf × MVState :=
  let s := if s.isLeafPinned then s else { s with linkedLeaf := h.activeLeaf }
  (match s.linkedLeaf with
   | some l => some l
   | none => h.activeLeaf, s)

/-- `readFilePath`: reads `getLeafTarget().view.file`, throwing (modelled
as `Except.error` carrying the state mutated so far) when the target leaf,
its view, or its file is undefined; otherwise records the new path and
basename and reports whether the path changed. -/
def readFilePath (h : Host) (s : MVState) :
    Except MVState (Bool × MVState) :=
  let target := getLeafTarget h s
  match target.1 with
  | none => .error target.2
  | some leaf =>
    match leaf.view with
    | none => .error target.2
    | some v =>
      match v.file with
      | none => .error target.2
      | some fi =>
        let pathHasChanged := s.filePath != fi.path
        .ok (pathHasChanged,
             { target.2 with filePath := fi.path, fileName := fi.basename })

/-- `readMarkDown`: reads the tracked file from the vault; on success
reports whether the content changed and stores it; a failed read is caught
inside this method, logged, and yields undefined (`none`). -/
def readMarkDown (h : Host) (s : MVState) : Option Bool × MVState :=
  match h.read s.filePath with
  | some md =>
    (some (decide (s.currentMd ≠ some md)), { s with currentMd := some md })
  | none => (none, { s with errorLog := s.errorLog + 1 })

/-- `update`, entered with an optional markdown argument: a truthy string
argument replaces the current markdown, otherwise the file is re-read; the
invocation is counted on entry (the transformer/renderer work beyond the
`!this.currentMd` early-return is third-party). -/
def update (h : Host) (markdown : Option String) (s : MVState) : MVState :=
  let s := { s with updateCount := s.updateCount + 1 }
  let s :=
    match markdown with
    | some md => if md ≠ "" then { s with currentMd := some md } else (readMarkDown h s).2
    | none => (readMarkDown h s).2
  s

/-- `checkActiveLeaf`: `false` unless the active leaf's view reports the
markdown view type; otherwise the path and content checks run (each
mutating the state) and the result is
`pathHasChanged || markDownHasChanged` under JavaScript truthiness, where
a failed read made `markDownHasChanged` undefined. -/
def checkActiveLeaf (h : Host) (s : MVState) :
    Except MVState (Bool × MVState) :=
  if ((h.activeLeaf.bind Leaf.view).map MVView.viewType) ≠ some MD_VIEW_TYPE then
    .ok (false, s)
  else
    match readFilePath h s with
    | .error s' => .error s'
    | .ok (pathHasChanged, s') =>
      let rmd := readMarkDown h s'
      .ok (pathHasChanged || rmd.1 == some true, rmd.2)

/-- `checkAndUpdate`: runs the check and, when it asks for one, the update,
inside a try/catch whose handler logs the error. -/
def checkAndUpdate (h : Host) (s : MVState) : MVState :=
  match checkActiveLeaf h s with
  | .ok (true, s') => update h none s'
  | .ok (false, s') => s'
  | .error s' => { s' with errorLog := s'.errorLog + 1 }

/-! ## applyColor (src/unnamed/part_000, lines 339-353) -/

/-- The settings fields `applyColor` consults. -/
structure ColorSettings where
  onlyUseDefaultColor : Bool
  defaultColor : String
  color1 : String
  color2 : String
  color3 : String
deriving DecidableEq

/-- The color function built by `applyColor`, applied to a node of the
given depth.  `frontmatterColors` may be undefined; `xs?.length` is falsy
for undefined and for the empty list. -/
def applyColor (settings : ColorSettings)
    (frontmatterColors : Option (List String)) (depth : Nat) : String :=
  if settings.onlyUseDefaultColor then settings.defaultColor
  else
    let fmNonEmpty :=
      match frontmatterColors with
      | some l => l.length != 0
      | none => false
    let colors :=
      if fmNonEmpty then frontmatterColors.getD []
      else [settings.color1, settings.color2, settings.color3]
    if fmNonEmpty then colors.getD (depth % colors.length) settings.defaultColor
    else if depth < colors.length then colors.getD depth settings.defaultColor
    else settings.defaultColor

/-! ## The htmlescape plugin (src/src/markmap-plugins/html-escape.ts) -/

/-- A Remarkable token as the plugin sees it: its type, optional content,
and optional children. -/
inductive Token where
  | mk (type : String) (content : Option String) (children : Option (List Token))

/-- Token type accessor. -/
def Token.type : Token → String
  | .mk ty _ _ => ty

/-- Token content accessor. -/
def Token.content : Token → Option String
  | .mk _ co _ => co

/-- Token children accessor. -/
def Token.children : Token → Option (List Token)
  | .mk _ _ ch => ch

/-- JavaScript truthiness of `token.content` (undefined and the empty
string are falsy). -/
def contentTruthy : Option String → Bool
  | some s => s != ""
  | none => false

/-- `String.prototype.replace` with a one-character search string: replaces
the first occurrence only. -/
def replaceFirstChar (c : Char) (rep : String) : List Char → List Char
  | [] => []
  | x :: xs => if x = c then rep.data ++ xs else x :: replaceFirstChar c rep xs

/-- `s.replace(c, rep)` on strings. -/
def jsReplace (c : Char) (rep : String) (s : String) : String :=
  ⟨replaceFirstChar c rep s.data⟩

/-- The content transformation of the plugin:
two chained first-occurrence replacements. -/
def escapeAngle (s : String) : String :=
  jsReplace '>' "&gt;" (jsReplace '<' "&lt;" s)

mutual

/-- `escapeAll`: rewrites the content of non-empty `htmltag` tokens through
the two replacements and maps itself over the children. -/
def escapeAll : Token → Token
  | .mk ty co ch =>
    .mk ty
      (if ty = "htmltag" ∧ contentTruthy co then co.map escapeAngle else co)
      (match ch with
       | some l => some (escapeAllList l)
       | none => none)

/-- `escapeAll` mapped over a child list. -/
def escapeAllList : List Token → List Token
  | [] => []
  | t :: ts => escapeAll t :: escapeAllList ts

end

/-! ## General lemmas -/

theorem JSObj.get_append (a b : JSObj) (k : String) :
    JSObj.get (a ++ b) k = Option.or (JSObj.get a k) (JSObj.get b k) := by
  induction a with
  | nil => simp [JSObj.get, Option.or]
  | cons p rest ih =>
    obtain ⟨k', v⟩ := p
    by_cases hk : k = k' <;> simp [JSObj.get, hk, ih, Option.or]

/-! ## Claim theorems -/

/-- C9: assigning `height = h` on a `SettingsManager` makes the `height`
getter return `h`; the pending `newHeight` is cleared by the assignment
exactly when `h` equals the persisted code-block height, in which case a
subsequent `saveHeight` leaves both the manager and the editor document
unchanged. -/
theorem setHeight_height_getter (m : SettingsManager) (h : Int) :
    (m.setHeight h).height = h
    ∧ ((m.setHeight h).newHeight = none ↔ m.codeBlockHeight = some h)
    ∧ (m.codeBlockHeight = some h →
        ∀ doc : EditorDoc, (m.setHeight h).saveHeight doc = (m.setHeight h, doc)) := by
  obtain ⟨g, f, cb, nh⟩ := m
  by_cases hc : SettingsManager.codeBlockHeight ⟨g, f, cb, nh⟩ = some h
  · have hc' : SettingsManager.codeBlockHeight ⟨g, f, cb, none⟩ = some h := hc
    refine ⟨?_, ?_, ?_⟩
    · simp [SettingsManager.setHeight, hc, SettingsManager.height, hc']
    · simp [SettingsManager.setHeight, hc]
    · intro _ doc
      simp [SettingsManager.setHeight, hc, SettingsManager.saveHeight]
  · refine ⟨?_, ?_, ?_⟩
    · simp [SettingsManager.setHeight, hc, SettingsManager.height]
    · simp [SettingsManager.setHeight, hc]
    · intro hcontra
      exact absurd hcontra hc

/-- C9 witness: with a persisted code-block height of 5, assigning 5 gives
getter value 5, clears the pending height, and makes `saveHeight` a
no-op. -/
theorem setHeight_height_getter_witness :
    ((SettingsManager.mk [] [] [("height", SVal.num 5)] (some 7)).setHeight 5).saveHeight
        (EditorDoc.mk "" (GMFile.mk (FMData.mk none []) "body") "")
      = ((SettingsManager.mk [] [] [("height", SVal.num 5)] (some 7)).setHeight 5,
         EditorDoc.mk "" (GMFile.mk (FMData.mk none []) "body") "") :=
  (setHeight_height_getter (SettingsManager.mk [] [] [("height", SVal.num 5)] (some 7)) 5).2.2
    (by decide) (EditorDoc.mk "" (GMFile.mk (FMData.mk none []) "body") "")

/-- C2: `merged` is the right-biased record merge (code-block over file
over global) for every key other than `height`; its `height` field is the
pending resize height when one is set, else the persisted code-block
height, else 150; and reading `merged` leaves the manager unchanged. -/
theorem merged_is_layered_merge (m : SettingsManager) :
    (∀ k : String, k ≠ "height" →
      m.merged.get k =
        Option.or (m.codeBlock.get k) (Option.or (m.file.get k) (m.global.get k)))
    ∧ (∀ h : Int, m.newHeight = some h → m.merged.get "height" = some (SVal.num h))
    ∧ (∀ h : Int, m.newHeight = none → m.codeBlockHeight = some h →
        m.merged.get "height" = some (SVal.num h))
    ∧ (m.newHeight = none → m.codeBlockHeight = none →
        m.merged.get "height" = some (SVal.num 150))
    ∧ m.mergedRead.2 = m := by
  refine ⟨?_, ?_, ?_, ?_, rfl⟩
  · intro k hk
    simp [SettingsManager.merged, JSObj.get, hk, JSObj.get_append, Option.or_assoc]
  · intro h hh
    simp [SettingsManager.merged, JSObj.get, SettingsManager.height, hh]
  · intro h hn hc
    simp [SettingsManager.merged, JSObj.get, SettingsManager.height, hn, hc]
  · intro hn hc
    simp [SettingsManager.merged, JSObj.get, SettingsManager.height, hn, hc,
      SettingsManager.DEFAULT_HEIGHT]

/-- C2 witness: on a concrete manager, a shadowed key resolves to the
code-block layer and the merged height falls back to the default 150. -/
theorem merged_is_layered_merge_witness :
    (SettingsManager.mk [("a", SVal.str "g"), ("b", SVal.bool true)]
        [("a", SVal.str "f")] [("a", SVal.str "c")] none).merged.get "a"
      = some (SVal.str "c")
    ∧ (SettingsManager.mk [("a", SVal.str "g"), ("b", SVal.bool true)]
        [("a", SVal.str "f")] [("a", SVal.str "c")] none).merged.get "height"
      = some (SVal.num 150) := by
  refine ⟨?_, ?_⟩
  · have := (merged_is_layered_merge (SettingsManager.mk
      [("a", SVal.str "g"), ("b", SVal.bool true)] [("a", SVal.str "f")]
      [("a", SVal.str "c")] none)).1 "a" (by decide)
    rw [this]; decide
  · exact (merged_is_layered_merge (SettingsManager.mk
      [("a", SVal.str "g"), ("b", SVal.bool true)] [("a", SVal.str "f")]
      [("a", SVal.str "c")] none)).2.2.2.1 (by decide) (by decide)

/-- C1: when a height is pending, `saveHeight` rewrites only the
code-block region's front-matter, setting `markmap.height` to the current
height (creating the `markmap` object if absent, preserving its other keys
and the other front-matter keys, the body text and the rest of the
document) and clears the pending height; when none is pending it leaves
manager and document unchanged. -/
theorem saveHeight_rewrites_frontmatter (m : SettingsManager) (doc : EditorDoc) :
    (m.newHeight = none → m.saveHeight doc = (m, doc))
    ∧ (∀ hv : Int, m.newHeight = some hv →
        (m.saveHeight doc).2.before = doc.before
        ∧ (m.saveHeight doc).2.after = doc.after
        ∧ (m.saveHeight doc).2.region.content = doc.region.content
        ∧ (m.saveHeight doc).2.region.data.rest = doc.region.data.rest
        ∧ (∃ mm : MarkmapFM,
            (m.saveHeight doc).2.region.data.markmap = some mm
            ∧ mm.height = some hv
            ∧ mm.rest = (Option.map MarkmapFM.rest doc.region.data.markmap).getD [])
        ∧ (m.saveHeight doc).1 = { m with newHeight := none }) := by
  obtain ⟨g, f, cb, nh⟩ := m
  obtain ⟨bef, ⟨⟨mmOpt, fmRest⟩, body⟩, aft⟩ := doc
  constructor
  · intro hn
    subst hn
    simp [SettingsManager.saveHeight]
  · intro hv hs
    simp only at hs
    subst hs
    have hh : SettingsManager.height ⟨g, f, cb, some hv⟩ = hv := by
      simp [SettingsManager.height]
    refine ⟨?_, ?_, ?_, ?_, ?_, ?_⟩ <;>
      cases mmOpt <;> simp [SettingsManager.saveHeight, SettingsManager.height]

/-- C1 witness: a pending height of 42 over a document with no markmap
object yields a markmap object whose height is 42 with no other keys, an
unchanged body, and a cleared pending height. -/
theorem saveHeight_rewrites_frontmatter_witness :
    ((SettingsManager.mk [] [] [] (some 42)).saveHeight
        (EditorDoc.mk "pre" (GMFile.mk (FMData.mk none [("k", SVal.num 1)]) "body") "post")).2.region.data.rest
      = [("k", SVal.num 1)]
    ∧ (∃ mm : MarkmapFM,
        ((SettingsManager.mk [] [] [] (some 42)).saveHeight
          (EditorDoc.mk "pre" (GMFile.mk (FMData.mk none [("k", SVal.num 1)]) "body") "post")).2.region.data.markmap = some mm
        ∧ mm.height = some 42
        ∧ mm.rest = (Option.map MarkmapFM.rest
            (EditorDoc.mk "pre" (GMFile.mk (FMData.mk none [("k", SVal.num 1)]) "body") "post").region.data.markmap).getD []) := by
  have h := (saveHeight_rewrites_frontmatter (SettingsManager.mk [] [] [] (some 42))
    (EditorDoc.mk "pre" (GMFile.mk (FMData.mk none [("k", SVal.num 1)]) "body") "post")).2
    42 rfl
  exact ⟨h.2.2.2.1, h.2.2.2.2.1⟩

theorem render_preserves_core {Node Opts : Type} (getOptions : JSObj → Opts)
    (s : CBRState Node Opts) :
    (render getOptions s).settings = s.settings ∧ (render getOptions s).rootNode = s.rootNode := by
  simp [render]

/-- C7: `updateGlobalSettings` replaces exactly the global layer and
`updateFileSettings` exactly the file layer; in both cases the two other
layers and the pending resize height are untouched and the render counter
increases by exactly one. -/
theorem updateSettings_frame (Node Opts : Type) (getOptions : JSObj → Opts)
    (g f : JSObj) (s : CBRState Node Opts) :
    (updateGlobalSettings getOptions g s).settings.global = g
    ∧ (updateGlobalSettings getOptions g s).settings.file = s.settings.file
    ∧ (updateGlobalSettings getOptions g s).settings.codeBlock = s.settings.codeBlock
    ∧ (updateGlobalSettings getOptions g s).settings.newHeight = s.settings.newHeight
    ∧ (updateGlobalSettings getOptions g s).renderCount = s.renderCount + 1
    ∧ (updateFileSettings getOptions f s).settings.file = f
    ∧ (updateFileSettings getOptions f s).settings.global = s.settings.global
    ∧ (updateFileSettings getOptions f s).settings.codeBlock = s.settings.codeBlock
    ∧ (updateFileSettings getOptions f s).settings.newHeight = s.settings.newHeight
    ∧ (updateFileSettings getOptions f s).renderCount = s.renderCount + 1 := by
  refine ⟨?_, ?_, ?_, ?_, ?_, ?_, ?_, ?_, ?_, ?_⟩ <;>
    simp [updateGlobalSettings, updateFileSettings, render]

theorem applyOps_rootNode {Node Opts : Type} (getOptions : JSObj → Opts)
    (ops : List CBOp) (s : CBRState Node Opts) :
    (applyOps getOptions ops s).rootNode = s.rootNode := by
  induction ops generalizing s with
  | nil => rfl
  | cons op rest ih =>
    have hop : (applyOp getOptions op s).rootNode = s.rootNode := by
      cases op <;>
        simp [applyOp, updateGlobalSettings, updateFileSettings, render]
    calc (applyOps getOptions (op :: rest) s).rootNode
        = (applyOps getOptions rest (applyOp getOptions op s)).rootNode := rfl
      _ = (applyOp getOptions op s).rootNode := ih _
      _ = s.rootNode := hop

theorem mem_classAdd (l : List String) (c : String) : c ∈ classAdd l c := by
  by_cases h : c ∈ l <;> simp [classAdd, h]

theorem not_mem_classRemove (l : List String) (c : String) : c ∉ classRemove l c := by
  simp [classRemove]

/-- C5: after any sequence of settings updates, re-renders and resize drags
on a code-block renderer, `render` hands the markmap the root node parsed
once from the code block's markdown at construction together with the
options derived from the currently merged settings, and afterwards the
parent element carries the highlight class exactly when the merged
`highlight` setting is truthy. -/
theorem render_uses_parsed_root (Node Opts : Type) (parse : String → Node × JSObj)
    (getOptions : JSObj → Opts) (codeBlock : CodeBlock) (gs fs : JSObj)
    (ops : List CBOp) :
    (render getOptions (applyOps getOptions ops
        (CodeBlockRenderer parse getOptions codeBlock gs fs))).lastSetData
      = some ((parse codeBlock.markdown).1,
          getOptions (applyOps getOptions ops
            (CodeBlockRenderer parse getOptions codeBlock gs fs)).settings.merged)
    ∧ (cssHighlight ∈ (render getOptions (applyOps getOptions ops
          (CodeBlockRenderer parse getOptions codeBlock gs fs))).parentClasses
        ↔ truthy ((applyOps getOptions ops
            (CodeBlockRenderer parse getOptions codeBlock gs fs)).settings.merged.get
              "highlight") = true) := by
  set s := applyOps getOptions ops (CodeBlockRenderer parse getOptions codeBlock gs fs) with hs
  have hroot : s.rootNode = (parse codeBlock.markdown).1 := by
    rw [hs, applyOps_rootNode]
    simp [CodeBlockRenderer, render]
  constructor
  · simp [render, hroot]
  · by_cases hh : truthy (s.settings.merged.get "highlight") = true
    · simp [render, hh, mem_classAdd]
    · simp [render, hh, not_mem_classRemove]

theorem processQuickPreview_close (t0 : Nat) (c0 : String)
    (es : List (Nat × String)) (hchain : List.Chain closeSpaced (t0, c0) es) :
    processQuickPreview (some (t0 + 300, c0)) es = [(es.getLastD (t0, c0)).2] := by
  induction es generalizing t0 c0 with
  | nil => simp [processQuickPreview]
  | cons e rest ih =>
    obtain ⟨t, c⟩ := e
    rw [List.chain_cons] at hchain
    obtain ⟨⟨_, hlt⟩, hrest⟩ := hchain
    have hfire : ¬ (t0 + 300 ≤ t) := by omega
    calc processQuickPreview (some (t0 + 300, c0)) ((t, c) :: rest)
        = processQuickPreview (some (t + 300, c)) rest := by
          simp [processQuickPreview, quickPreviewStep, hfire]
      _ = [(rest.getLastD (t, c)).2] := ih t c hrest
      _ = [(((t, c) :: rest).getLastD (t0, c0)).2] := by
          rw [List.getLastD_cons]

/-- C3: every quick-preview event cancels the pending update timer and
schedules a fresh 300 ms one for its own content, and a burst of events
each less than 300 ms after the previous one produces exactly one `update`
call, carrying the content of the last event of the burst. -/
theorem quickPreview_debounce :
    (∀ (pending : PendingTimer) (t : Nat) (c : String),
        (quickPreviewStep pending t c).2 = some (t + 300, c))
    ∧ (∀ (e : Nat × String) (es : List (Nat × String)),
        List.Chain closeSpaced e es →
        processQuickPreview none (e :: es) = [(es.getLastD e).2]) := by
  constructor
  · intro pending t c
    rfl
  · intro e es hchain
    obtain ⟨t0, c0⟩ := e
    calc processQuickPreview none ((t0, c0) :: es)
        = processQuickPreview (some (t0 + 300, c0)) es := by
          simp [processQuickPreview, quickPreviewStep]
      _ = [(es.getLastD (t0, c0)).2] := processQuickPreview_close t0 c0 es hchain

/-- C3 witness: a three-event burst at 0, 100 and 250 ms produces exactly
one update, with the content of the last event. -/
theorem quickPreview_debounce_witness :
    processQuickPreview none [(0, "a"), (100, "b"), (250, "c")] = ["c"] := by
  have h := quickPreview_debounce.2 (0, "a") [(100, "b"), (250, "c")]
    (by simp [List.chain_cons, closeSpaced])
  simpa using h

theorem registerAll_refs (evs : List String) (w : Emitter) :
    (registerAll w evs).2.refs = (registerAll w evs).1.reverse ++ w.refs := by
  induction evs generalizing w with
  | nil => simp [registerAll]
  | cons e rest ih =>
    simp [registerAll, ih, Emitter.on]

theorem onClose_refs_subset (l : List EventRef) (w : Emitter) :
    (onClose l w).refs ⊆ w.refs := by
  induction l generalizing w with
  | nil => exact fun r hr => hr
  | cons a rest ih =>
    intro r hr
    have : r ∈ (Emitter.offref w a).refs := ih (Emitter.offref w a) hr
    exact List.mem_of_mem_filter this

theorem not_mem_onClose (l : List EventRef) (w : Emitter) (r : EventRef)
    (hr : r ∈ l) : r ∉ (onClose l w).refs := by
  induction l generalizing w with
  | nil => cases hr
  | cons a rest ih =>
    rcases List.mem_cons.mp hr with heq | hmem
    · subst heq
      intro hcontra
      have : r ∈ (Emitter.offref w r).refs :=
        onClose_refs_subset rest (Emitter.offref w r) hcontra
      simp [Emitter.offref] at this
    · exact ih (Emitter.offref w a) hmem

/-- C6: every reference `setListenersUp` registers on the workspace is
stored in the returned listeners array, and after `onClose` deregisters the
stored listeners none of the references registered by `setListenersUp`
remains attached to the workspace. -/
theorem listeners_all_detached (w leaf : Emitter) :
    (∀ r : EventRef, r ∈ (setListenersUp w leaf).2.1.refs → r ∉ w.refs →
        r ∈ (setListenersUp w leaf).1)
    ∧ (∀ r : EventRef, r ∈ (setListenersUp w leaf).1 →
        r ∉ (onClose (setListenersUp w leaf).1 (setListenersUp w leaf).2.1).refs) := by
  constructor
  · intro r hr hnew
    have hrefs := registerAll_refs workspaceEvents w
    simp only [setListenersUp] at hr ⊢
    rw [hrefs] at hr
    rcases List.mem_append.mp hr with hws | hold
    · exact List.mem_append.mpr (Or.inl (List.mem_reverse.mp hws))
    · exact absurd hold hnew
  · intro r hr
    exact not_mem_onClose _ _ r hr

/-- C6 witness: on a fresh workspace and leaf, the first registered
quick-preview reference is stored in the listeners array and is no longer
attached after `onClose`. -/
theorem listeners_all_detached_witness :
    (EventRef.mk "workspace" 0 "quick-preview"
        ∈ (setListenersUp (Emitter.mk "workspace" 0 []) (Emitter.mk "leaf" 0 [])).1)
    ∧ (EventRef.mk "workspace" 0 "quick-preview"
        ∉ (onClose (setListenersUp (Emitter.mk "workspace" 0 []) (Emitter.mk "leaf" 0 [])).1
            (setListenersUp (Emitter.mk "workspace" 0 []) (Emitter.mk "leaf" 0 [])).2.1).refs) := by
  have h1 := (listeners_all_detached (Emitter.mk "workspace" 0 []) (Emitter.mk "leaf" 0 [])).1
    (EventRef.mk "workspace" 0 "quick-preview") (by decide) (by decide)
  have h2 := (listeners_all_detached (Emitter.mk "workspace" 0 []) (Emitter.mk "leaf" 0 [])).2
    (EventRef.mk "workspace" 0 "quick-preview") h1
  exact ⟨h1, h2⟩

/-- C10: the color function is the configured default colour at every depth
when `onlyUseDefaultColor` is set; otherwise a non-empty front-matter
colour list is indexed by depth modulo its length, and without one the
settings colours 1, 2, 3 serve depths 0, 1, 2 and the default colour every
greater depth. -/
theorem applyColor_depth_scheme (st : ColorSettings)
    (fm : Option (List String)) (depth : Nat) :
    (st.onlyUseDefaultColor = true → applyColor st fm depth = st.defaultColor)
    ∧ (st.onlyUseDefaultColor = false →
        ∀ (l : List String) (hl : l ≠ []), fm = some l →
          applyColor st fm depth
            = l.get ⟨depth % l.length, Nat.mod_lt _ (List.length_pos.mpr hl)⟩)
    ∧ (st.onlyUseDefaultColor = false → (fm = none ∨ fm = some []) →
        (depth = 0 → applyColor st fm depth = st.color1)
        ∧ (depth = 1 → applyColor st fm depth = st.color2)
        ∧ (depth = 2 → applyColor st fm depth = st.color3)
        ∧ (3 ≤ depth → applyColor st fm depth = st.defaultColor)) := by
  refine ⟨?_, ?_, ?_⟩
  · intro hd
    simp [applyColor, hd]
  · intro hd l hl hfm
    subst hfm
    have hlen : l.length ≠ 0 := fun hz => hl (List.eq_nil_of_length_eq_zero hz)
    have hmod : depth % l.length < l.length :=
      Nat.mod_lt _ (Nat.pos_of_ne_zero hlen)
    simp [applyColor, hd, hlen, List.getD_eq_getElem?_getD, List.getElem?_eq_getElem hmod,
      List.get_eq_getElem]
  · intro hd hfm
    rcases hfm with hfm | hfm <;> subst hfm <;>
      refine ⟨?_, ?_, ?_, ?_⟩ <;> intro hdep <;>
        first
          | (subst hdep; simp [applyColor, hd])
          | (simp [applyColor, hd]; omega)

/-- C10 witness: with a two-colour front-matter list, depth 3 wraps around
to the second colour; without one, depth 1 takes settings colour 2 and
depth 7 the default colour. -/
theorem applyColor_depth_scheme_witness :
    applyColor (ColorSettings.mk false "def" "c1" "c2" "c3") (some ["x", "y"]) 3 = "y"
    ∧ applyColor (ColorSettings.mk false "def" "c1" "c2" "c3") none 1 = "c2"
    ∧ applyColor (ColorSettings.mk false "def" "c1" "c2" "c3") none 7 = "def" := by
  refine ⟨?_, ?_, ?_⟩
  · have h := (applyColor_depth_scheme (ColorSettings.mk false "def" "c1" "c2" "c3")
      (some ["x", "y"]) 3).2.1 rfl ["x", "y"] (by decide) rfl
    simpa using h
  · exact ((applyColor_depth_scheme (ColorSettings.mk false "def" "c1" "c2" "c3")
      none 1).2.2 rfl (Or.inl rfl)).2.1 rfl
  · exact ((applyColor_depth_scheme (ColorSettings.mk false "def" "c1" "c2" "c3")
      none 7).2.2 rfl (Or.inl rfl)).2.2.2 (by omega)

theorem str_ext (s t : String) (h : s.data = t.data) : s = t := by
  cases s
  cases t
  exact congrArg String.mk h

theorem replaceFirstChar_of_not_mem (c : Char) (rep : String) (l : List Char)
    (h : c ∉ l) : replaceFirstChar c rep l = l := by
  induction l with
  | nil => rfl
  | cons x xs ih =>
    rw [List.mem_cons, not_or] at h
    have hx : ¬ (x = c) := fun hxc => h.1 hxc.symm
    simp [replaceFirstChar, hx, ih h.2]

theorem replaceFirstChar_append (c : Char) (rep : String) (pre suf : List Char)
    (h : c ∉ pre) :
    replaceFirstChar c rep (pre ++ c :: suf) = pre ++ rep.data ++ suf := by
  induction pre with
  | nil => simp [replaceFirstChar]
  | cons x xs ih =>
    rw [List.mem_cons, not_or] at h
    have hx : ¬ (x = c) := fun hxc => h.1 hxc.symm
    simp [replaceFirstChar, hx, ih h.2]

theorem escapeAllList_eq_map (l : List Token) :
    escapeAllList l = List.map escapeAll l := by
  induction l with
  | nil => rfl
  | cons t ts ih => simp [escapeAllList, ih]

/-- C8: `escapeAll` keeps every token's type, recurses into children, maps
the content of `htmltag` tokens with non-empty content through the two
replacements and leaves every other content untouched; each replacement
rewrites only the first `<` (to `&lt;`) and the first `>` (to `&gt;`),
leaving all later angle brackets unchanged. -/
theorem escapeAll_first_occurrence (t : Token) :
    (escapeAll t).type = t.type
    ∧ (escapeAll t).children = Option.map escapeAllList t.children
    ∧ (∀ l : List Token, escapeAllList l = List.map escapeAll l)
    ∧ (t.type = "htmltag" → contentTruthy t.content = true →
        (escapeAll t).content = Option.map escapeAngle t.content)
    ∧ (t.type ≠ "htmltag" → (escapeAll t).content = t.content)
    ∧ (contentTruthy t.content = false → (escapeAll t).content = t.content)
    ∧ (∀ pre mid suf : String,
        '<' ∉ pre.data → '>' ∉ pre.data → '>' ∉ mid.data →
        escapeAngle (pre ++ "<" ++ mid ++ ">" ++ suf)
          = pre ++ "&lt;" ++ mid ++ "&gt;" ++ suf)
    ∧ (∀ s : String, '<' ∉ s.data → '>' ∉ s.data → escapeAngle s = s) := by
  obtain ⟨ty, co, ch⟩ := t
  refine ⟨?_, ?_, escapeAllList_eq_map, ?_, ?_, ?_, ?_, ?_⟩
  · simp [escapeAll, Token.type]
  · cases ch <;> simp [escapeAll, Token.children]
  · intro hty hco
    simp [escapeAll, Token.content, Token.type] at *
    simp [hty, hco]
  · intro hty
    simp [Token.type] at hty
    simp [escapeAll, Token.content, hty]
  · intro hco
    simp [Token.content] at hco
    simp [escapeAll, Token.content, hco]
  · intro pre mid suf hpre hpre2 hmid
    apply str_ext
    have hdata : (pre ++ "<" ++ mid ++ ">" ++ suf).data
        = pre.data ++ '<' :: (mid.data ++ '>' :: suf.data) := by
      simp [String.data_append]
    have hlt : replaceFirstChar '<' "&lt;" (pre ++ "<" ++ mid ++ ">" ++ suf).data
        = pre.data ++ "&lt;".data ++ (mid.data ++ '>' :: suf.data) := by
      rw [hdata]
      exact replaceFirstChar_append '<' "&lt;" pre.data (mid.data ++ '>' :: suf.data) hpre
    have hnogt : '>' ∉ pre.data ++ "&lt;".data ++ mid.data := by
      intro hmem
      rcases List.mem_append.mp hmem with hmem | hmem
      · rcases List.mem_append.mp hmem with hmem | hmem
        · exact hpre2 hmem
        · revert hmem
          decide
      · exact hmid hmem
    calc (escapeAngle (pre ++ "<" ++ mid ++ ">" ++ suf)).data
        = replaceFirstChar '>' "&gt;"
            (replaceFirstChar '<' "&lt;" (pre ++ "<" ++ mid ++ ">" ++ suf).data) := rfl
      _ = replaceFirstChar '>' "&gt;"
            ((pre.data ++ "&lt;".data ++ mid.data) ++ '>' :: suf.data) := by
          rw [hlt]; simp
      _ = (pre.data ++ "&lt;".data ++ mid.data) ++ "&gt;".data ++ suf.data :=
          replaceFirstChar_append '>' "&gt;" _ suf.data hnogt
      _ = (pre ++ "&lt;" ++ mid ++ "&gt;" ++ suf).data := by
          simp [String.data_append]
  · intro s hlt hgt
    apply str_ext
    calc (escapeAngle s).data
        = replaceFirstChar '>' "&gt;" (replaceFirstChar '<' "&lt;" s.data) := rfl
      _ = replaceFirstChar '>' "&gt;" s.data := by
          rw [replaceFirstChar_of_not_mem '<' "&lt;" s.data hlt]
      _ = s.data := replaceFirstChar_of_not_mem '>' "&gt;" s.data hgt

/-- C8 witness: an `htmltag` token containing two tag pairs has only its
first angle brackets escaped; a text token's content is untouched. -/
theorem escapeAll_first_occurrence_witness :
    (escapeAll (Token.mk "htmltag" (some "<b>x</b>") none)).content
      = some "&lt;b&gt;x</b>"
    ∧ (escapeAll (Token.mk "text" (some "<b>") none)).content = some "<b>" := by
  constructor
  · have h := (escapeAll_first_occurrence (Token.mk "htmltag" (some "<b>x</b>") none)).2.2.2.1
      rfl (by decide)
    rw [h]
    have h2 := (escapeAll_first_occurrence (Token.mk "htmltag" (some "<b>x</b>") none)).2.2.2.2.2.2.1
      "" "b" "x</b>" (by decide) (by decide) (by decide)
    simp only [Token.content, Option.map]
    have hs : ("" : String) ++ "<" ++ "b" ++ ">" ++ "x</b>" = "<b>x</b>" := by decide
    have hs2 : ("" : String) ++ "&lt;" ++ "b" ++ "&gt;" ++ "x</b>" = "&lt;b&gt;x</b>" := by decide
    rw [hs, hs2] at h2
    rw [h2]
  · exact (escapeAll_first_occurrence (Token.mk "text" (some "<b>") none)).2.2.2.2.1
      (by decide)

theorem getLeafTarget_fields (h : Host) (s : MVState) :
    ((getLeafTarget h s).2).filePath = s.filePath
    ∧ ((getLeafTarget h s).2).currentMd = s.currentMd
    ∧ ((getLeafTarget h s).2).updateCount = s.updateCount
    ∧ ((getLeafTarget h s).2).errorLog = s.errorLog := by
  simp only [getLeafTarget]
  split_ifs <;> simp

theorem readFilePath_error_eq (h : Host) (s s' : MVState)
    (he : readFilePath h s = .error s') : s' = (getLeafTarget h s).2 := by
  cases h1 : (getLeafTarget h s).1 with
  | none =>
    simp [readFilePath, h1] at he
    exact he.symm
  | some leaf =>
    cases h2 : leaf.view with
    | none =>
      simp [readFilePath, h1, h2] at he
      exact he.symm
    | some v =>
      cases h3 : v.file with
      | none =>
        simp [readFilePath, h1, h2, h3] at he
        exact he.symm
      | some fi =>
        simp [readFilePath, h1, h2, h3] at he

theorem checkActiveLeaf_error (h : Host) (s s' : MVState)
    (he : checkActiveLeaf h s = .error s') : readFilePath h s = .error s' := by
  simp only [checkActiveLeaf] at he
  split at he
  · simp at he
  · cases hrf : readFilePath h s with
    | error s2 =>
      simp [hrf] at he
      rw [he]
    | ok p =>
      simp [hrf] at he

/-- C4: any exception raised while checking the active leaf is caught by
`checkAndUpdate` (logged, state otherwise as the check left it, no update
invoked); and when the leaf target's file is present and readable, `update`
is invoked exactly when the active leaf's view is the markdown view and
the tracked file path or the file's markdown content has changed since the
last check. -/
theorem checkAndUpdate_gating :
    (∀ (h : Host) (s s' : MVState), checkActiveLeaf h s = .error s' →
        checkAndUpdate h s = { s' with errorLog := s'.errorLog + 1 }
        ∧ s'.updateCount = s.updateCount)
    ∧ (∀ (h : Host) (s : MVState) (fi : FileInfo) (md : String),
        ((getLeafTarget h s).1.bind Leaf.view).bind MVView.file = some fi →
        h.read fi.path = some md →
        (checkAndUpdate h s).updateCount
          = s.updateCount +
              (if ((h.activeLeaf.bind Leaf.view).map MVView.viewType) = some MD_VIEW_TYPE
                  ∧ (s.filePath ≠ fi.path ∨ s.currentMd ≠ some md)
               then 1 else 0)) := by
  constructor
  · intro h s s' herr
    have hrf := checkActiveLeaf_error h s s' herr
    have hs' : s' = (getLeafTarget h s).2 := readFilePath_error_eq h s s' hrf
    constructor
    · simp only [checkAndUpdate, herr]
    · rw [hs']
      exact (getLeafTarget_fields h s).2.2.1
  · intro h s fi md hfi hread
    rcases Option.bind_eq_some.mp hfi with ⟨v, hv, hfile⟩
    rcases Option.bind_eq_some.mp hv with ⟨leaf, hleaf, hview⟩
    have hfields := getLeafTarget_fields h s
    have hupd : ∀ s' : MVState, (update h none s').updateCount = s'.updateCount + 1 := by
      intro s'
      simp only [update, readMarkDown]
      cases h.read ({ s' with updateCount := s'.updateCount + 1 } : MVState).filePath <;> simp
    by_cases hMD : ((h.activeLeaf.bind Leaf.view).map MVView.viewType) = some MD_VIEW_TYPE
    · have hrf : readFilePath h s
          = .ok (s.filePath != fi.path,
              { (getLeafTarget h s).2 with filePath := fi.path, fileName := fi.basename }) := by
        simp [readFilePath, hleaf, hview, hfile]
      have hMD' : ¬ (((h.activeLeaf.bind Leaf.view).map MVView.viewType) ≠ some MD_VIEW_TYPE) :=
        fun hc => hc hMD
      have hcal : checkActiveLeaf h s
          = .ok ((s.filePath != fi.path) || decide (s.currentMd ≠ some md),
              { (getLeafTarget h s).2 with
                  filePath := fi.path
                  fileName := fi.basename
                  currentMd := some md }) := by
        simp only [checkActiveLeaf]
        rw [if_neg hMD']
        rw [hrf]
        simp [readMarkDown, hread, hfields.2.1]
      cases hb : ((s.filePath != fi.path) || decide (s.currentMd ≠ some md)) with
      | true =>
        rw [hb] at hcal
        have hcond : s.filePath ≠ fi.path ∨ s.currentMd ≠ some md := by
          rcases Bool.or_eq_true _ _ |>.mp hb with hx | hx
          · exact Or.inl (bne_iff_ne.mp hx)
          · exact Or.inr (of_decide_eq_true hx)
        rw [if_pos ⟨hMD, hcond⟩]
        simp only [checkAndUpdate, hcal]
        rw [hupd]
        simp [hfields.2.2.1]
      | false =>
        rw [hb] at hcal
        have hcond : ¬ (((h.activeLeaf.bind Leaf.view).map MVView.viewType) = some MD_VIEW_TYPE
            ∧ (s.filePath ≠ fi.path ∨ s.currentMd ≠ some md)) := by
          rw [Bool.or_eq_false_iff] at hb
          rintro ⟨-, hor | hor⟩
          · exact hor (bne_eq_false_iff_eq.mp hb.1)
          · exact hor (of_decide_eq_false hb.2 |> not_not.mp)
        rw [if_neg hcond]
        simp only [checkAndUpdate, hcal]
        simp [hfields.2.2.1]
    · have hcond : ¬ (((h.activeLeaf.bind Leaf.view).map MVView.viewType) = some MD_VIEW_TYPE
          ∧ (s.filePath ≠ fi.path ∨ s.currentMd ≠ some md)) := fun hc => hMD hc.1
      rw [if_neg hcond]
      have hcal : checkActiveLeaf h s = .ok (false, s) := by
        simp only [checkActiveLeaf]
        rw [if_pos hMD]
      simp [checkAndUpdate, hcal]

/-- C4 witness: a markdown active leaf whose file content differs from the
tracked content triggers exactly one update; an active leaf whose view has
no file makes the check throw, which is caught, logged, and update is not
invoked. -/
theorem checkAndUpdate_gating_witness :
    (checkAndUpdate
        (Host.mk (some (Leaf.mk (some (MVView.mk "markdown" (some (FileInfo.mk "a.md" "a"))))))
          (fun p => if p = "a.md" then some "content" else none))
        (MVState.mk "a.md" "a" none false none 0 0)).updateCount
      = (MVState.mk "a.md" "a" none false none 0 0).updateCount + 1
    ∧ (checkActiveLeaf
          (Host.mk (some (Leaf.mk (some (MVView.mk "markdown" none))))
            (fun _ => none))
          (MVState.mk "a.md" "a" none false none 0 0)
        = .error (MVState.mk "a.md" "a" none false
            (some (Leaf.mk (some (MVView.mk "markdown" none)))) 0 0)
       → checkAndUpdate
          (Host.mk (some (Leaf.mk (some (MVView.mk "markdown" none))))
            (fun _ => none))
          (MVState.mk "a.md" "a" none false none 0 0)
        = { MVState.mk "a.md" "a" none false
              (some (Leaf.mk (some (MVView.mk "markdown" none)))) 0 0 with
            errorLog := 1 }) := by
  constructor
  · have h := checkAndUpdate_gating.2
      (Host.mk (some (Leaf.mk (some (MVView.mk "markdown" (some (FileInfo.mk "a.md" "a"))))))
        (fun p => if p = "a.md" then some "content" else none))
      (MVState.mk "a.md" "a" none false none 0 0)
      (FileInfo.mk "a.md" "a") "content" rfl rfl
    rw [h]
    simp [MD_VIEW_TYPE]
  · intro herr
    exact (checkAndUpdate_gating.1
      (Host.mk (some (Leaf.mk (some (MVView.mk "markdown" none)))) (fun _ => none))
      (MVState.mk "a.md" "a" none false none 0 0)
      (MVState.mk "a.md" "a" none false
        (some (Leaf.mk (some (MVView.mk "markdown" none)))) 0 0) herr).1

end Mindmap
